import Mathlib

/-!
Verification of the news-analyser ingestion/dedup/scoring/aggregation pipeline.

Each definition below is a shallow embedding of a function of the repository,
translated from the Python source (file and function named in its doc comment).
Machine floats are modelled as exact rationals (or reals where a transcendental
power appears); external collaborators (the database, the cache, the hash
routine, the fuzzy string-ratio library) are passed in as explicit parameters.
-/

namespace NewsAnalyser

/-! ### Sentiment ensemble — news_analyser/sentiment/analyzer.py -/

/-- Raw per-model results as assembled by `AdvancedSentimentAnalyzer.analyze_sentiment`:
each of the four adapters either produced a score or is absent. -/
structure ModelScores where
  gemini_score : Option ℚ
  finbert_score : Option ℚ
  vader_score : Option ℚ
  textblob_score : Option ℚ
deriving DecidableEq, Repr

/-- The `(score, weight)` pairs iterated by `_calculate_composite_score`, in the
source's dict order: gemini 0.4, finbert 0.3, vader 0.2, textblob 0.1. -/
def scoreWeightPairs (r : ModelScores) : List (Option ℚ × ℚ) :=
  [(r.gemini_score, 4/10), (r.finbert_score, 3/10),
   (r.vader_score, 2/10), (r.textblob_score, 1/10)]

/-- Accumulator `weighted_sum` of `_calculate_composite_score`. -/
def weighted_sum (r : ModelScores) : ℚ :=
  (scoreWeightPairs r).foldl
    (fun acc p =>
      match p.1 with
      | some s => acc + s * p.2
      | none => acc) 0

/-- Accumulator `total_weight` of `_calculate_composite_score`. -/
def total_weight (r : ModelScores) : ℚ :=
  (scoreWeightPairs r).foldl
    (fun acc p =>
      match p.1 with
      | some _ => acc + p.2
      | none => acc) 0

/-- `AdvancedSentimentAnalyzer._calculate_composite_score`: the weighted sum
divided by the total weight when positive, else 0.0. -/
def calculate_composite_score (r : ModelScores) : ℚ :=
  if 0 < total_weight r then weighted_sum r / total_weight r else 0

/-- The list `valid_scores` of `_calculate_confidence`: the present scores in
the source's order. -/
def valid_scores (r : ModelScores) : List ℚ :=
  [r.gemini_score, r.finbert_score, r.vader_score, r.textblob_score].filterMap id

/-- `AdvancedSentimentAnalyzer._calculate_confidence`: 0.5 when fewer than two
scores are present, otherwise `1 - min(variance, 1.0)` over the present scores. -/
def calculate_confidence (r : ModelScores) : ℚ :=
  let vs := valid_scores r
  if vs.length < 2 then 1/2
  else
    let mean_score := vs.sum / (vs.length : ℚ)
    let variance := (vs.map (fun s => (s - mean_score) ^ 2)).sum / (vs.length : ℚ)
    1 - min variance 1

/-- `AdvancedSentimentAnalyzer.get_sentiment_label`: the if/elif chain with
inclusive upper bounds at -0.6, -0.2, 0.2, 0.6. -/
def get_sentiment_label (score : ℚ) : String :=
  if score ≤ -(6/10) then "very_negative"
  else if score ≤ -(2/10) then "negative"
  else if score ≤ 2/10 then "neutral"
  else if score ≤ 6/10 then "positive"
  else "very_positive"

/-- Spec-side formulation for the composite (C1): the `(score, weight)` pairs of
the adapters actually present. -/
def presentScoreWeights (r : ModelScores) : List (ℚ × ℚ) :=
  (scoreWeightPairs r).filterMap (fun p => p.1.map (fun s => (s, p.2)))

/-- Spec-side composite (C1): weighted average of present scores, weights
renormalized over the adapters present; 0.0 when no adapter produced a score. -/
def compositeSpec (r : ModelScores) : ℚ :=
  let ps := presentScoreWeights r
  if ps = [] then 0
  else (ps.map (fun q => q.1 * q.2)).sum / (ps.map (fun q => q.2)).sum

/-- Mean of a list of rationals (spec-side, for the confidence formula). -/
def listMean (l : List ℚ) : ℚ := l.sum / (l.length : ℚ)

/-- Population variance of a list of rationals (spec-side, for the confidence
formula `1 - min(variance(present_scores), 1.0)`). -/
def listVariance (l : List ℚ) : ℚ :=
  (l.map (fun s => (s - listMean l) ^ 2)).sum / (l.length : ℚ)

/-! ### Content deduplication — news_analyser/scraping/deduplication.py

The SHA-256 routine is an external primitive; it is passed in as an abstract
`hashFn : String → String`. The Django persistent store (`News.objects`) and
the seen-fingerprint cache are passed in as the lists of URLs / hashes they
currently hold. -/

/-- Python `str.lower()` (character-wise lowercasing). -/
def pyLower (s : String) : String := String.mk (s.toList.map Char.toLower)

/-- Python `str.strip()`: drop leading and trailing whitespace. -/
def pyStrip (s : String) : String :=
  String.mk (((s.toList.dropWhile Char.isWhitespace).reverse.dropWhile
    Char.isWhitespace).reverse)

/-- Python `str.startswith(p)`. -/
def pyStartsWith (s p : String) : Bool := List.isPrefixOf p.toList s.toList

/-- `ContentDeduplicator.generate_hash`: hash of the lowercased, stripped text. -/
def generate_hash (hashFn : String → String) (text : String) : String :=
  hashFn (pyStrip (pyLower text))

/-- `ContentDeduplicator.generate_content_hash`: hash of lowercased title
concatenated with lowercased content. -/
def generate_content_hash (hashFn : String → String) (title content : String) : String :=
  generate_hash hashFn (pyLower title ++ pyLower content)

/-- An article dictionary as consumed by `deduplicate_articles`: the fields the
function reads. `content_hash` is `none` when the key is absent. -/
structure DedupArticle where
  link : String
  title : String
  content_summary : String
  content_hash : Option String
deriving DecidableEq, Repr

/-- The content hash used for an article: the stored one, or the one generated
from title and summary (`article.get('content_hash') or generate_content_hash`). -/
def articleHash (hashFn : String → String) (a : DedupArticle) : String :=
  match a.content_hash with
  | some h => h
  | none => generate_content_hash hashFn a.title a.content_summary

/-- The loop of `ContentDeduplicator.deduplicate_articles`, with the batch-local
`seen_hashes` / `seen_urls` sets and the shared cache threaded explicitly.
`store` is the set of URLs already persisted (`is_duplicate_by_url`), `cache`
the set of fingerprints already marked seen (`is_duplicate_by_hash`). -/
def dedupGo (hashFn : String → String) (store : List String) :
    List String → List String → List String → List DedupArticle → List DedupArticle
  | _, _, _, [] => []
  | cache, seenHashes, seenUrls, a :: rest =>
    if a.link ∈ seenUrls ∨ a.link ∈ store then
      dedupGo hashFn store cache seenHashes seenUrls rest
    else
      let h := articleHash hashFn a
      if h ∈ seenHashes ∨ h ∈ cache then
        dedupGo hashFn store cache seenHashes seenUrls rest
      else
        a :: dedupGo hashFn store (h :: cache) (h :: seenHashes) (a.link :: seenUrls) rest

/-- `ContentDeduplicator.deduplicate_articles`: filter a batch against the
persistent store (URLs) and the fingerprint cache, starting with empty
batch-local seen-sets. -/
def deduplicate_articles (hashFn : String → String) (store cache : List String)
    (articles : List DedupArticle) : List DedupArticle :=
  dedupGo hashFn store cache [] [] articles

/-- Maximal runs of non-whitespace characters (the pieces of Python
`str.split()` with no argument). -/
def splitWs : List Char → List Char → List (List Char)
  | [], acc => if acc.isEmpty then [] else [acc.reverse]
  | c :: cs, acc =>
    if c.isWhitespace then
      (if acc.isEmpty then splitWs cs [] else acc.reverse :: splitWs cs [])
    else splitWs cs (c :: acc)

/-- Tokenization used by `calculate_similarity` and by the fuzzy ticker tier:
Python `text.lower().split()` — lowercase, split on whitespace, drop empties. -/
def pySplit (text : String) : List String :=
  (splitWs (pyLower text).toList []).map (fun w => String.mk w)

/-- The token set of a text (`set(text.lower().split())`). -/
def wordSet (text : String) : Finset String := (pySplit text).toFinset

/-- `ContentDeduplicator.calculate_similarity`: Jaccard similarity of the two
token sets, 0.0 when either set is empty. -/
def calculate_similarity (text1 text2 : String) : ℚ :=
  let words1 := wordSet text1
  let words2 := wordSet text2
  if words1 = ∅ ∨ words2 = ∅ then 0
  else ((words1 ∩ words2).card : ℚ) / ((words1 ∪ words2).card : ℚ)

/-! ### Sector rotation signals — news_analyser/sentiment/sector_analyzer.py

The database aggregation (average `sentiment_score` per half-window per
sector) is passed in as a function `halves : String → Option ℚ × Option ℚ`
giving each sector's first-half and second-half average; `(none, _)` or
`(_, none)` covers both a missing Sector row and an empty half. -/

/-- The keys of `SectorSentimentAnalyzer.SECTORS`, in source order. -/
def sectorNames : List String :=
  ["banking", "it", "pharma", "auto", "fmcg", "energy", "metals", "telecom",
   "realty", "infrastructure"]

/-- One entry of the `rotation_signals` list built by
`get_sector_rotation_signals`. -/
structure RotationSignal where
  sector : String
  signal : String
  sentiment_change : ℚ
  previous_sentiment : ℚ
  current_sentiment : ℚ
deriving DecidableEq, Repr

/-- The per-sector body of the loop in `get_sector_rotation_signals`: when both
half-window averages exist and `|change| > 0.2`, produce a bullish/bearish
signal, else nothing. -/
def signalFor (halves : String → Option ℚ × Option ℚ) (name : String) :
    Option RotationSignal :=
  match halves name with
  | (some firstAvg, some secondAvg) =>
    let change := secondAvg - firstAvg
    if |change| > 2/10 then
      some { sector := name
             signal := if change > 0 then "bullish" else "bearish"
             sentiment_change := change
             previous_sentiment := firstAvg
             current_sentiment := secondAvg }
    else none
  | _ => none

/-- `SectorSentimentAnalyzer.get_sector_rotation_signals`: collect the signals
over all known sectors, then sort by descending absolute sentiment change
(Python's stable `list.sort(key=abs(change), reverse=True)`). -/
def get_sector_rotation_signals (halves : String → Option ℚ × Option ℚ) :
    List RotationSignal :=
  (sectorNames.filterMap (signalFor halves)).mergeSort
    (fun a b => decide (|b.sentiment_change| ≤ |a.sentiment_change|))

/-! ### Ticker sentiment aggregation — news_analyser/tasks.py

`aggregate_ticker_sentiment` reads `(sentiment_score, age_hours)` pairs from
the store; the float power `2 ** (-age_hours / (hours / 2))` is modelled with
the real power function. -/

/-- The per-record decay weight of `aggregate_ticker_sentiment`:
`weight = 2 ** (-age_hours / (hours / 2))`. -/
noncomputable def decayWeight (hours age_hours : ℝ) : ℝ :=
  (2 : ℝ) ^ (-age_hours / (hours / 2))

/-- The weighted-average computation of `aggregate_ticker_sentiment` over the
window's `(score, age_hours)` records: `sum(weighted_scores) / total_weight`
when the total weight is positive, else 0. -/
noncomputable def weightedSentiment (hours : ℝ) (records : List (ℝ × ℝ)) : ℝ :=
  let weightedScores := records.map (fun r => r.1 * decayWeight hours r.2)
  let totalWeight := (records.map (fun r => decayWeight hours r.2)).sum
  if totalWeight > 0 then weightedScores.sum / totalWeight else 0

/-- The plain average (`Avg('sentiment_score')`) over the same records. -/
noncomputable def plainAverageSentiment (records : List (ℝ × ℝ)) : ℝ :=
  (records.map (fun r => r.1)).sum / (records.length : ℝ)

/-! ### Ticker recognition — news_analyser/sentiment/utils.py

`TickerRecognizer.ticker_data` is modelled as a list of `(symbol, info)` rows,
`company_variations` as a list of `(variation, symbol)` rows in dict insertion
order. `difflib.SequenceMatcher.ratio` is an external primitive, passed in as
`ratioFn : String → String → ℚ`. -/

/-- One row of `ticker_data`. -/
structure TickerInfo where
  symbol : String
  name : String
  industry : String
deriving DecidableEq, Repr

/-- One element of the `found_tickers` list of `find_tickers_in_text`.
`similarity` is only set by the fuzzy tier. -/
structure TickerMatch where
  symbol : String
  name : String
  industry : String
  match_type : String
  similarity : Option ℚ
deriving DecidableEq, Repr

/-- Dictionary lookup `self.ticker_data[symbol]`. -/
def tickerLookup (data : List TickerInfo) (sym : String) : Option TickerInfo :=
  data.find? (fun t => t.symbol == sym)

/-- A Python regex word character (for the `\b` boundaries of
`re.findall(r'\b[A-Z]{2,10}\b', text)`). -/
def isWordChar (c : Char) : Bool := c.isAlphanum || c == '_'

/-- An ASCII uppercase letter (the `[A-Z]` class). -/
def isUpperAZ (c : Char) : Bool := 'A' ≤ c && c ≤ 'Z'

/-- Maximal runs of word characters in a character list (the candidate tokens
between two word boundaries). -/
def wordRuns : List Char → List Char → List (List Char)
  | [], acc => if acc.isEmpty then [] else [acc.reverse]
  | c :: cs, acc =>
    if isWordChar c then wordRuns cs (c :: acc)
    else if acc.isEmpty then wordRuns cs [] else acc.reverse :: wordRuns cs []

/-- `re.findall(r'\b[A-Z]{2,10}\b', text)`: the maximal word-character runs
that consist of 2 to 10 uppercase letters. -/
def extractUpperSymbols (text : String) : List String :=
  ((wordRuns text.toList []).filter
    (fun w => 2 ≤ w.length && w.length ≤ 10 && w.all isUpperAZ)).map
    (fun w => String.mk w)

/-- Occurrence of one character list as a contiguous segment of another. -/
def occursIn (needle : List Char) : List Char → Bool
  | [] => needle.isEmpty
  | c :: cs => List.isPrefixOf needle (c :: cs) || occursIn needle cs

/-- Python substring test `needle in haystack`. -/
def strContains (haystack needle : String) : Bool :=
  occursIn needle.toList haystack.toList

/-- Tier 1 of `find_tickers_in_text`: every uppercase token that is a known
symbol is appended — one entry per occurrence, with no duplicate check. -/
def exactSymbolTier (data : List TickerInfo) (text : String) : List TickerMatch :=
  (extractUpperSymbols text).foldl
    (fun found w =>
      match tickerLookup data w with
      | some info =>
        found ++ [{ symbol := info.symbol, name := info.name,
                    industry := info.industry, match_type := "exact_symbol",
                    similarity := none }]
      | none => found) []

/-- The loop body of tier 2: a company-name variation occurring as a substring
of the lowercased text adds its symbol, unless already found. (The source
indexes `ticker_data[symbol]` directly; every variation's symbol is a key by
construction, and the model skips a dangling symbol.) -/
def companyStep (data : List TickerInfo) (textLower : String)
    (found : List TickerMatch) (v : String × String) : List TickerMatch :=
  if strContains textLower v.1 && !(found.map (fun t => t.symbol)).contains v.2 then
    match tickerLookup data v.2 with
    | some info =>
      found ++ [{ symbol := v.2, name := info.name, industry := info.industry,
                  match_type := "company_name", similarity := none }]
    | none => found
  else found

/-- Tier 2 of `find_tickers_in_text`: fold the company-name check over the
variation table. -/
def companyNameTier (data : List TickerInfo) (variations : List (String × String))
    (textLower : String) (found0 : List TickerMatch) : List TickerMatch :=
  variations.foldl (companyStep data textLower) found0

/-- The sliding 1-to-4-word phrases of the fuzzy tier: for each start index `i`
and each `j` in `range(i+1, min(i+5, len+1))`, the phrase `words[i:j]`. -/
def windowPhrases (ws : List String) : List String :=
  (List.range ws.length).flatMap
    (fun i =>
      (List.range 4).filterMap
        (fun k =>
          if i + 1 + k ≤ ws.length then
            some (String.intercalate " " ((ws.drop i).take (k + 1)))
          else none))

/-- The inner loop body of tier 3: a variation of length ≥ 4 whose similarity
ratio with the phrase reaches the threshold adds its symbol (annotated with
the ratio), unless already found. -/
def fuzzyStep (ratioFn : String → String → ℚ) (threshold : ℚ)
    (data : List TickerInfo) (phrase : String)
    (found : List TickerMatch) (v : String × String) : List TickerMatch :=
  if v.1.length < 4 then found
  else
    if ratioFn phrase v.1 ≥ threshold &&
        !(found.map (fun t => t.symbol)).contains v.2 then
      match tickerLookup data v.2 with
      | some info =>
        found ++ [{ symbol := v.2, name := info.name,
                    industry := info.industry,
                    match_type := "fuzzy_match",
                    similarity := some (ratioFn phrase v.1) }]
      | none => found
    else found

/-- Tier 3 of `find_tickers_in_text`: each sliding phrase of length ≥ 4 is
compared to every variation with the similarity ratio. -/
def fuzzyTier (ratioFn : String → String → ℚ) (threshold : ℚ)
    (data : List TickerInfo) (variations : List (String × String))
    (textLower : String) (found0 : List TickerMatch) : List TickerMatch :=
  (windowPhrases (pySplit textLower)).foldl
    (fun foundPhrase phrase =>
      if phrase.length < 4 then foundPhrase
      else variations.foldl (fuzzyStep ratioFn threshold data phrase) foundPhrase)
    found0

/-- `TickerRecognizer.find_tickers_in_text`: the three tiers in sequence.
(`text_lower = text.lower()`; the fuzzy tier iterates `text_lower.split()`.) -/
def find_tickers_in_text (ratioFn : String → String → ℚ) (threshold : ℚ)
    (data : List TickerInfo) (variations : List (String × String))
    (text : String) : List TickerMatch :=
  fuzzyTier ratioFn threshold data variations (pyLower text)
    (companyNameTier data variations (pyLower text)
      (exactSymbolTier data text))

/-! ### Article normalization — news_analyser/scraping/base_scraper.py and
news_analyser/scraper_refactored.py

Raw feed entries are dictionaries of optional string fields; `None` models a
missing key. Date parsing (`_parse_date`) is passed in abstractly as
`parseDate : String → Option ℤ`. -/

/-- The optional fields of a raw entry that `normalize_article`,
`validate_article` and `_extract_article` read. -/
structure RawEntry where
  title : Option String
  summary : Option String
  description : Option String
  content : Option String
  link : Option String
  url : Option String
  author : Option String
  published : Option String
  pubDate : Option String
deriving DecidableEq, Repr

/-- The canonical article produced by normalization (the fields relevant to
the claims). -/
structure NormalizedArticle where
  title : String
  content_summary : String
  content : String
  link : String
  author : String
  published_at : Option ℤ
  source_name : String
  content_hash : String
deriving DecidableEq, Repr

/-- `BaseScraper.normalize_article`: field-by-field defaulting exactly as in
the source — `title = get('title','').strip()`,
`content_summary = get('summary', get('description','')).strip()`,
`link = get('link', get('url',''))`, publish date parsed from
`get('published', get('pubDate'))`. -/
def normalize_article (hashFn : String → String) (parseDate : String → Option ℤ)
    (sourceName : String) (e : RawEntry) : NormalizedArticle :=
  let title := pyStrip (e.title.getD "")
  let content_summary := pyStrip (e.summary.getD (e.description.getD ""))
  { title := title
    content_summary := content_summary
    content := e.content.getD ""
    link := e.link.getD (e.url.getD "")
    author := e.author.getD ""
    published_at :=
      let d := e.published.getD (e.pubDate.getD "")
      if d = "" then none else parseDate d
    source_name := sourceName
    content_hash := generate_content_hash hashFn title content_summary }

/-- `BaseScraper.validate_article`: title and link are non-empty (Python
truthiness) and the link starts with `http://` or `https://`. -/
def validate_article (e : RawEntry) : Bool :=
  e.title.getD "" ≠ "" && e.link.getD "" ≠ "" &&
    (pyStartsWith (e.link.getD "") "http://" || pyStartsWith (e.link.getD "") "https://")

/-- `NewsScraperRefactored._extract_article` (the refactored scraper's
normalizer), restricted to the fields the claims mention: it discards entries
missing title or link, and falls back to the title when the stripped
summary/description is empty. -/
def extract_article (hashFn : String → String) (feedName : String)
    (e : RawEntry) : Option NormalizedArticle :=
  let title := pyStrip (e.title.getD "")
  let link := pyStrip (e.link.getD "")
  if title = "" ∨ link = "" then none
  else
    let summary0 := pyStrip (e.summary.getD (e.description.getD ""))
    let summary := if summary0 = "" then title else summary0
    some { title := title
           content_summary := summary
           content := ""
           link := link
           author := e.author.getD ""
           published_at := none
           source_name := feedName
           content_hash := generate_content_hash hashFn title summary }

/-! ### Fetch retry policy — news_analyser/scraping/rss_scraper.py,
news_analyser/scraping/base_scraper.py, news_analyser/scraper_refactored.py -/

/-- The outcome of one HTTP GET of a feed, as distinguished by
`RSSFeedScraper._scrape_feed`. -/
inductive FetchOutcome where
  | ok (entries : List RawEntry)
  | httpStatus (code : ℕ)
  | timeout
  | networkError
deriving DecidableEq, Repr

/-- `RSSFeedScraper._scrape_feed`: performs exactly one HTTP request; a
non-200 status, a timeout or a network error each yield an empty list with no
further request. Returns the entries together with the number of HTTP
requests performed. -/
def scrape_feed (responses : ℕ → FetchOutcome) : List RawEntry × ℕ :=
  match responses 0 with
  | .ok entries => (entries, 1)
  | _ => ([], 1)

/-- `BaseScraper.scrape_with_retry` from a given attempt index: each failed
attempt before the last sleeps `2 ** attempt` seconds and retries; the result
is the scraped list (or `[]`), the number of attempts performed, and the list
of backoff delays slept. `scrape attempt = none` models `self.scrape()`
raising on that attempt. -/
def scrapeWithRetryAux (scrape : ℕ → Option (List NormalizedArticle))
    (maxRetries : ℕ) (attempt : ℕ) : List NormalizedArticle × ℕ × List ℕ :=
  if attempt < maxRetries then
    match scrape attempt with
    | some articles => (articles, attempt + 1, [])
    | none =>
      if attempt < maxRetries - 1 then
        ((scrapeWithRetryAux scrape maxRetries (attempt + 1)).1,
         (scrapeWithRetryAux scrape maxRetries (attempt + 1)).2.1,
         2 ^ attempt :: (scrapeWithRetryAux scrape maxRetries (attempt + 1)).2.2)
      else ([], attempt + 1, [])
  else ([], attempt, [])
termination_by maxRetries - attempt

/-- `BaseScraper.scrape_with_retry` (default `max_retries = 3`). -/
def scrape_with_retry (scrape : ℕ → Option (List NormalizedArticle))
    (maxRetries : ℕ) : List NormalizedArticle × ℕ × List ℕ :=
  scrapeWithRetryAux scrape maxRetries 0

/-- The `status_forcelist` of `NewsScraperRefactored._create_session`: the
only HTTP statuses its urllib3 `Retry` strategy retries. -/
def retryStatusForcelist : List ℕ := [429, 500, 502, 503, 504]

/-! ## Theorems -/

/-- A quotient with a positive denominator bounded by it in absolute value
lies in `[-1, 1]`. -/
theorem div_bounds_of_abs_le (a b : ℚ) (hb : 0 < b) (h1 : -b ≤ a) (h2 : a ≤ b) :
    -1 ≤ a / b ∧ a / b ≤ 1 := by
  constructor
  · rw [le_div_iff₀ hb]
    linarith
  · rw [div_le_one hb]
    exact h2

/-- C5: sentiment-label derivation is a total function of the composite score
with inclusive upper bounds -0.6 / -0.2 / 0.2 / 0.6 separating very_negative,
negative, neutral, positive and very_positive, and the seven probe inputs
-1.0, -0.6, -0.2, 0.0, 0.2, 0.6, 1.0 map to very_negative, very_negative,
negative, neutral, neutral, positive, very_positive. -/
theorem sentiment_label_breakpoints :
    (∀ s : ℚ, s ≤ -(6/10) → get_sentiment_label s = "very_negative") ∧
    (∀ s : ℚ, -(6/10) < s → s ≤ -(2/10) → get_sentiment_label s = "negative") ∧
    (∀ s : ℚ, -(2/10) < s → s ≤ 2/10 → get_sentiment_label s = "neutral") ∧
    (∀ s : ℚ, 2/10 < s → s ≤ 6/10 → get_sentiment_label s = "positive") ∧
    (∀ s : ℚ, 6/10 < s → get_sentiment_label s = "very_positive") ∧
    get_sentiment_label (-1) = "very_negative" ∧
    get_sentiment_label (-(6/10)) = "very_negative" ∧
    get_sentiment_label (-(2/10)) = "negative" ∧
    get_sentiment_label 0 = "neutral" ∧
    get_sentiment_label (2/10) = "neutral" ∧
    get_sentiment_label (6/10) = "positive" ∧
    get_sentiment_label 1 = "very_positive" := by
  refine ⟨?_, ?_, ?_, ?_, ?_, ?_, ?_, ?_, ?_, ?_, ?_, ?_⟩
  · intro s h₁
    unfold get_sentiment_label
    rw [if_pos h₁]
  · intro s h₁ h₂
    unfold get_sentiment_label
    rw [if_neg (by linarith), if_pos h₂]
  · intro s h₁ h₂
    unfold get_sentiment_label
    rw [if_neg (by linarith), if_neg (by linarith), if_pos h₂]
  · intro s h₁ h₂
    unfold get_sentiment_label
    rw [if_neg (by linarith), if_neg (by linarith), if_neg (by linarith), if_pos h₂]
  · intro s h₁
    unfold get_sentiment_label
    rw [if_neg (by linarith), if_neg (by linarith), if_neg (by linarith),
      if_neg (by linarith)]
  all_goals norm_num [get_sentiment_label]

/-- C5 witness: the theorem applied at the concrete score -0.7. -/
theorem sentiment_label_breakpoints_witness :
    get_sentiment_label (-(7/10)) = "very_negative" :=
  sentiment_label_breakpoints.1 (-(7/10)) (by norm_num)

/-- The loop accumulator `weighted_sum` equals the sum of score-times-weight
over the adapters present. -/
theorem weighted_sum_eq_present (r : ModelScores) :
    weighted_sum r = ((presentScoreWeights r).map (fun q => q.1 * q.2)).sum := by
  obtain ⟨g, f, v, t⟩ := r
  cases g <;> cases f <;> cases v <;> cases t <;>
    simp [weighted_sum, scoreWeightPairs, presentScoreWeights] <;> ring

/-- The loop accumulator `total_weight` equals the sum of the weights of the
adapters present. -/
theorem total_weight_eq_present (r : ModelScores) :
    total_weight r = ((presentScoreWeights r).map (fun q => q.2)).sum := by
  obtain ⟨g, f, v, t⟩ := r
  cases g <;> cases f <;> cases v <;> cases t <;>
    simp [total_weight, scoreWeightPairs, presentScoreWeights] <;> ring

/-- No adapter present means no `(score, weight)` pair and conversely. -/
theorem presentScoreWeights_eq_nil_iff (r : ModelScores) :
    presentScoreWeights r = [] ↔ valid_scores r = [] := by
  obtain ⟨g, f, v, t⟩ := r
  cases g <;> cases f <;> cases v <;> cases t <;>
    simp [presentScoreWeights, scoreWeightPairs, valid_scores]

/-- With at least one adapter present the total weight is positive. -/
theorem total_weight_pos (r : ModelScores) (h : valid_scores r ≠ []) :
    0 < total_weight r := by
  obtain ⟨g, f, v, t⟩ := r
  cases g <;> cases f <;> cases v <;> cases t <;>
    simp [valid_scores] at h <;>
    norm_num [total_weight, scoreWeightPairs]

/-- With no adapter present the total weight is zero. -/
theorem total_weight_eq_zero (r : ModelScores) (h : valid_scores r = []) :
    total_weight r = 0 := by
  obtain ⟨g, f, v, t⟩ := r
  cases g <;> cases f <;> cases v <;> cases t <;>
    simp [valid_scores] at h <;>
    norm_num [total_weight, scoreWeightPairs]

/-- A sum of score-times-weight terms with scores in `[-1, 1]` and nonnegative
weights is bounded by the sum of the weights in absolute value. -/
theorem sum_mul_le_sum_weights (ps : List (ℚ × ℚ))
    (h : ∀ p ∈ ps, (-1 ≤ p.1 ∧ p.1 ≤ 1) ∧ 0 ≤ p.2) :
    -((ps.map (fun q => q.2)).sum) ≤ (ps.map (fun q => q.1 * q.2)).sum ∧
      (ps.map (fun q => q.1 * q.2)).sum ≤ (ps.map (fun q => q.2)).sum := by
  induction ps with
  | nil => simp
  | cons p rest ih =>
    simp only [List.map_cons, List.sum_cons]
    have hp := h p (by simp)
    have hrest := ih (fun q hq => h q (by simp [hq]))
    constructor <;> nlinarith [hp.1.1, hp.1.2, hp.2, hrest.1, hrest.2]

/-- Every present `(score, weight)` pair has its score among the valid scores
and a nonnegative weight. -/
theorem mem_presentScoreWeights (r : ModelScores) (p : ℚ × ℚ)
    (hp : p ∈ presentScoreWeights r) : p.1 ∈ valid_scores r ∧ 0 ≤ p.2 := by
  obtain ⟨g, f, v, t⟩ := r
  cases g <;> cases f <;> cases v <;> cases t <;>
    simp [presentScoreWeights, scoreWeightPairs, valid_scores] at hp ⊢ <;>
    rcases hp with h | h | h | h <;>
    simp_all <;> norm_num

/-- When every present score lies in `[-1, 1]`, the weighted sum is bounded by
the total weight in absolute value. -/
theorem weighted_sum_bounds (r : ModelScores)
    (hb : ∀ s ∈ valid_scores r, -1 ≤ s ∧ s ≤ 1) :
    -(total_weight r) ≤ weighted_sum r ∧ weighted_sum r ≤ total_weight r := by
  rw [weighted_sum_eq_present, total_weight_eq_present]
  exact sum_mul_le_sum_weights (presentScoreWeights r)
    (fun p hp => ⟨hb p.1 (mem_presentScoreWeights r p hp).1,
      (mem_presentScoreWeights r p hp).2⟩)

/-- C1: with every present adapter score in `[-1, 1]`, the composite equals
the weighted average of the present scores under the fixed weights
gemini 0.4 / finbert 0.3 / vader 0.2 / textblob 0.1 renormalized over the
adapters present, equals 0.0 when no adapter produced a score, and always
lies in `[-1, 1]`. -/
theorem composite_score_renormalized_and_bounded (r : ModelScores)
    (hb : ∀ s ∈ valid_scores r, -1 ≤ s ∧ s ≤ 1) :
    calculate_composite_score r = compositeSpec r ∧
    (valid_scores r = [] → calculate_composite_score r = 0) ∧
    -1 ≤ calculate_composite_score r ∧ calculate_composite_score r ≤ 1 := by
  by_cases he : valid_scores r = []
  · have htw : total_weight r = 0 := total_weight_eq_zero r he
    have hps : presentScoreWeights r = [] := (presentScoreWeights_eq_nil_iff r).mpr he
    refine ⟨?_, fun _ => ?_, ?_, ?_⟩ <;>
      simp [calculate_composite_score, compositeSpec, htw, hps]
  · have htw := total_weight_pos r he
    have hws := weighted_sum_bounds r hb
    have hps : presentScoreWeights r ≠ [] :=
      fun h => he ((presentScoreWeights_eq_nil_iff r).mp h)
    have hcs : calculate_composite_score r = weighted_sum r / total_weight r := by
      simp [calculate_composite_score, htw]
    have hspec : compositeSpec r = weighted_sum r / total_weight r := by
      simp only [compositeSpec]
      rw [if_neg hps, ← weighted_sum_eq_present, ← total_weight_eq_present]
    have hbounds := div_bounds_of_abs_le (weighted_sum r) (total_weight r) htw hws.1 hws.2
    exact ⟨by rw [hcs, hspec], fun h => absurd h he,
      by rw [hcs]; exact hbounds.1, by rw [hcs]; exact hbounds.2⟩

/-- C1 witness: the theorem applied to the spec's worked example — only the
vader score 0.8 and the textblob score 0.2 present. -/
theorem composite_score_renormalized_and_bounded_witness :
    calculate_composite_score ⟨none, none, some (8/10), some (2/10)⟩ =
        compositeSpec ⟨none, none, some (8/10), some (2/10)⟩ ∧
      (valid_scores ⟨none, none, some (8/10), some (2/10)⟩ = [] →
        calculate_composite_score ⟨none, none, some (8/10), some (2/10)⟩ = 0) ∧
      -1 ≤ calculate_composite_score ⟨none, none, some (8/10), some (2/10)⟩ ∧
      calculate_composite_score ⟨none, none, some (8/10), some (2/10)⟩ ≤ 1 :=
  composite_score_renormalized_and_bounded ⟨none, none, some (8/10), some (2/10)⟩
    (by norm_num [valid_scores])

/-- C2 counterexample: with zero adapters producing a score the ensemble's
confidence is 1/2, not 0.0 as claimed — `len(valid_scores) < 2` covers the
empty case too. -/
theorem confidence_empty_counterexample :
    valid_scores ⟨none, none, none, none⟩ = [] ∧
      calculate_confidence ⟨none, none, none, none⟩ ≠ 0 := by
  constructor
  · rfl
  · norm_num [calculate_confidence, valid_scores]

/-- C2 amended: the confidence equals `1 - min(variance(present_scores), 1.0)`
when at least two scores are present, and equals 0.5 whenever fewer than two
are present — for exactly one present score and also for zero present
scores. -/
theorem confidence_agreement_formula (r : ModelScores) :
    ((valid_scores r).length = 0 → calculate_confidence r = 1/2) ∧
    ((valid_scores r).length = 1 → calculate_confidence r = 1/2) ∧
    (2 ≤ (valid_scores r).length →
      calculate_confidence r = 1 - min (listVariance (valid_scores r)) 1) := by
  refine ⟨fun h => ?_, fun h => ?_, fun h => ?_⟩
  · simp [calculate_confidence, h]
  · simp [calculate_confidence, h]
  · have hlt : ¬ ((valid_scores r).length < 2) := by omega
    simp [calculate_confidence, hlt, listVariance, listMean]

/-- C2 amended witness: the theorem applied to the two-score assignment with
vader 0.8 and textblob 0.2. -/
theorem confidence_agreement_formula_witness :
    calculate_confidence ⟨none, none, some (8/10), some (2/10)⟩ =
      1 - min (listVariance (valid_scores ⟨none, none, some (8/10), some (2/10)⟩)) 1 :=
  (confidence_agreement_formula ⟨none, none, some (8/10), some (2/10)⟩).2.2 (by decide)

/-- C10: the Jaccard text similarity is symmetric, always lies in `[0, 1]`,
returns 0.0 whenever either text has no whitespace-separated tokens, and
returns 1.0 for two non-empty texts with identical token sets. -/
theorem similarity_jaccard_props :
    (∀ t1 t2 : String, calculate_similarity t1 t2 = calculate_similarity t2 t1) ∧
    (∀ t1 t2 : String,
      0 ≤ calculate_similarity t1 t2 ∧ calculate_similarity t1 t2 ≤ 1) ∧
    (∀ t1 t2 : String, pySplit t1 = [] ∨ pySplit t2 = [] →
      calculate_similarity t1 t2 = 0) ∧
    (∀ t1 t2 : String, wordSet t1 = wordSet t2 → wordSet t1 ≠ ∅ →
      calculate_similarity t1 t2 = 1) := by
  refine ⟨?_, ?_, ?_, ?_⟩
  · intro t1 t2
    by_cases h1 : wordSet t1 = ∅ <;> by_cases h2 : wordSet t2 = ∅ <;>
      simp [calculate_similarity, h1, h2, Finset.inter_comm, Finset.union_comm]
  · intro t1 t2
    by_cases h : wordSet t1 = ∅ ∨ wordSet t2 = ∅
    · simp [calculate_similarity, h]
    · push_neg at h
      have hn1 : (wordSet t1).Nonempty := Finset.nonempty_iff_ne_empty.mpr h.1
      have hu : 0 < ((wordSet t1 ∪ wordSet t2).card : ℚ) := by
        have hpos : 0 < (wordSet t1 ∪ wordSet t2).card :=
          Finset.card_pos.mpr (hn1.mono Finset.subset_union_left)
        exact_mod_cast hpos
      constructor
      · simp only [calculate_similarity]
        rw [if_neg (by push_neg; exact h)]
        positivity
      · simp only [calculate_similarity]
        rw [if_neg (by push_neg; exact h), div_le_one hu]
        exact_mod_cast Finset.card_le_card Finset.inter_subset_union
  · intro t1 t2 h
    have : wordSet t1 = ∅ ∨ wordSet t2 = ∅ := by
      rcases h with h | h <;> [left; right] <;> simp [wordSet, h]
    simp [calculate_similarity, this]
  · intro t1 t2 heq hne
    have hcard : ((wordSet t1).card : ℚ) ≠ 0 := by
      have : 0 < (wordSet t1).card :=
        Finset.card_pos.mpr (Finset.nonempty_iff_ne_empty.mpr hne)
      exact_mod_cast this.ne.symm
    simp only [calculate_similarity]
    rw [if_neg (by push_neg; exact ⟨hne, heq ▸ hne⟩), ← heq,
      Finset.inter_self, Finset.union_self, div_self hcard]

/-- C10 witness: the theorem's identical-token-set clause applied to the
concrete texts "Gold up" and "UP GOLD up". -/
theorem similarity_jaccard_props_witness :
    calculate_similarity "Gold up" "UP GOLD up" = 1 :=
  similarity_jaccard_props.2.2.2 "Gold up" "UP GOLD up" (by decide) (by decide)

/-- The two complementary filters of a list partition its length. -/
theorem length_filter_not_add_length_filter {α : Type} (p : α → Bool) (l : List α) :
    (l.filter (fun a => !p a)).length + (l.filter p).length = l.length := by
  induction l with
  | nil => simp
  | cons a t ih => by_cases h : p a <;> simp [List.filter_cons, h] <;> omega

/-- On a batch whose content hashes are pairwise distinct and unseen and whose
URLs are pairwise distinct, the dedup loop keeps exactly the articles whose
URL is not in the persistent store. -/
theorem dedupGo_eq_filter (hashFn : String → String) (store : List String) :
    ∀ (articles : List DedupArticle) (cache seenHashes seenUrls : List String),
      (articles.map (articleHash hashFn)).Nodup →
      (∀ a ∈ articles, articleHash hashFn a ∉ cache ∧ articleHash hashFn a ∉ seenHashes) →
      (articles.map (fun a => a.link)).Nodup →
      (∀ a ∈ articles, a.link ∉ seenUrls) →
      dedupGo hashFn store cache seenHashes seenUrls articles =
        articles.filter (fun a => !decide (a.link ∈ store)) := by
  intro articles
  induction articles with
  | nil => intro cache seenHashes seenUrls _ _ _ _; rfl
  | cons a rest ih =>
    intro cache seenHashes seenUrls hnodH hfreshH hnodU hfreshU
    have hnotU : a.link ∉ seenUrls := hfreshU a (by simp)
    have ha := hfreshH a (by simp)
    simp only [List.map_cons, List.nodup_cons] at hnodH hnodU
    by_cases hst : a.link ∈ store
    · rw [show dedupGo hashFn store cache seenHashes seenUrls (a :: rest) =
          dedupGo hashFn store cache seenHashes seenUrls rest by
            simp only [dedupGo]; rw [if_pos (Or.inr hst)]]
      rw [ih cache seenHashes seenUrls hnodH.2
        (fun b hb => hfreshH b (by simp [hb])) hnodU.2
        (fun b hb => hfreshU b (by simp [hb]))]
      simp [List.filter_cons, hst]
    · rw [show dedupGo hashFn store cache seenHashes seenUrls (a :: rest) =
          a :: dedupGo hashFn store (articleHash hashFn a :: cache)
            (articleHash hashFn a :: seenHashes) (a.link :: seenUrls) rest by
            simp only [dedupGo]
            rw [if_neg (by simp [hnotU, hst]), if_neg (by simp [ha.1, ha.2])]]
      rw [ih (articleHash hashFn a :: cache) (articleHash hashFn a :: seenHashes)
        (a.link :: seenUrls) hnodH.2
        (fun b hb => by
          have hb2 := hfreshH b (by simp [hb])
          have hne : articleHash hashFn b ≠ articleHash hashFn a := by
            intro hcontra
            exact hnodH.1 (hcontra ▸ List.mem_map_of_mem _ hb)
          simp [hb2.1, hb2.2, hne])
        hnodU.2
        (fun b hb => by
          have hb2 := hfreshU b (by simp [hb])
          have hne : b.link ≠ a.link := by
            intro hcontra
            exact hnodU.1 (hcontra ▸ List.mem_map_of_mem _ hb)
          simp [hb2, hne])]
      simp [List.filter_cons, hst]

/-- C3: on a batch with pairwise-distinct URLs and pairwise-distinct, unseen
content fingerprints, of which exactly K articles carry a URL already in the
persistent store, `deduplicate_articles` returns exactly N-K articles, the
returned URLs are pairwise distinct, and the batch's original order is
preserved (the result is a sublist of the batch). -/
theorem deduplicate_articles_url_filter (hashFn : String → String)
    (store cache : List String) (articles : List DedupArticle) (K : ℕ)
    (hhashNodup : (articles.map (articleHash hashFn)).Nodup)
    (hhashFresh : ∀ a ∈ articles, articleHash hashFn a ∉ cache)
    (hurlNodup : (articles.map (fun a => a.link)).Nodup)
    (hK : K = (articles.filter (fun a => decide (a.link ∈ store))).length) :
    (deduplicate_articles hashFn store cache articles).length = articles.length - K ∧
    ((deduplicate_articles hashFn store cache articles).map (fun a => a.link)).Nodup ∧
    (deduplicate_articles hashFn store cache articles).Sublist articles := by
  have heq : deduplicate_articles hashFn store cache articles =
      articles.filter (fun a => !decide (a.link ∈ store)) :=
    dedupGo_eq_filter hashFn store articles cache [] []
      hhashNodup (fun a ha => ⟨hhashFresh a ha, by simp⟩) hurlNodup (by simp)
  have hlen := length_filter_not_add_length_filter
    (fun a => decide (a.link ∈ store)) articles
  refine ⟨?_, ?_, ?_⟩
  · rw [heq, hK]
    omega
  · rw [heq]
    exact hurlNodup.sublist ((List.filter_sublist articles).map (fun a => a.link))
  · rw [heq]
    exact List.filter_sublist articles

/-- C3 witness: the theorem applied to a three-article batch of which exactly
the middle one is already persisted. -/
theorem deduplicate_articles_url_filter_witness :
    (deduplicate_articles id ["u2"] []
        [⟨"u1", "t1", "s1", some "h1"⟩, ⟨"u2", "t2", "s2", some "h2"⟩,
         ⟨"u3", "t3", "s3", some "h3"⟩]).length = 3 - 1 ∧
    ((deduplicate_articles id ["u2"] []
        [⟨"u1", "t1", "s1", some "h1"⟩, ⟨"u2", "t2", "s2", some "h2"⟩,
         ⟨"u3", "t3", "s3", some "h3"⟩]).map (fun a => a.link)).Nodup ∧
    (deduplicate_articles id ["u2"] []
        [⟨"u1", "t1", "s1", some "h1"⟩, ⟨"u2", "t2", "s2", some "h2"⟩,
         ⟨"u3", "t3", "s3", some "h3"⟩]).Sublist
      [⟨"u1", "t1", "s1", some "h1"⟩, ⟨"u2", "t2", "s2", some "h2"⟩,
       ⟨"u3", "t3", "s3", some "h3"⟩] :=
  deduplicate_articles_url_filter id ["u2"] []
    [⟨"u1", "t1", "s1", some "h1"⟩, ⟨"u2", "t2", "s2", some "h2"⟩,
     ⟨"u3", "t3", "s3", some "h3"⟩] 1
    (by decide) (by decide) (by decide) (by decide)

/-- Inversion for the per-sector loop body: a produced signal records its
sector, carries the half-window averages and their delta, exceeds the 0.2
threshold in absolute value, and is tagged by the delta's sign. -/
theorem signalFor_eq_some (halves : String → Option ℚ × Option ℚ) (n : String)
    (sig : RotationSignal) (h : signalFor halves n = some sig) :
    sig.sector = n ∧ ∃ fa sa : ℚ, halves n = (some fa, some sa) ∧
      sig.sentiment_change = sa - fa ∧ |sa - fa| > 2/10 ∧
      sig.signal = (if sa - fa > 0 then "bullish" else "bearish") ∧
      sig.previous_sentiment = fa ∧ sig.current_sentiment = sa := by
  unfold signalFor at h
  rcases hh : halves n with ⟨fo, so⟩
  rw [hh] at h
  match fo, so with
  | none, _ => exact absurd h (by simp)
  | some fa, none => exact absurd h (by simp)
  | some fa, some sa =>
    simp only at h
    split at h
    · obtain rfl := (Option.some_inj.mp h).symm
      exact ⟨rfl, fa, sa, rfl, rfl, by assumption, rfl, rfl, rfl⟩
    · exact absurd h (by simp)

/-- C4: for a sector with data in both half-windows, a rotation signal is
reported exactly when the absolute delta between the second-half and
first-half averages strictly exceeds 0.2 (a delta of exactly 0.2 does not
fire); the signal is tagged bullish for a positive delta and bearish for a
negative one; and the returned list is sorted by descending absolute delta. -/
theorem rotation_signals_threshold_and_order (halves : String → Option ℚ × Option ℚ) :
    (∀ name ∈ sectorNames, ∀ firstAvg secondAvg : ℚ,
      halves name = (some firstAvg, some secondAvg) →
      ((∃ sig ∈ get_sector_rotation_signals halves, sig.sector = name) ↔
        |secondAvg - firstAvg| > 2/10)) ∧
    (∀ name ∈ sectorNames, ∀ firstAvg secondAvg : ℚ,
      halves name = (some firstAvg, some secondAvg) →
      |secondAvg - firstAvg| > 2/10 →
      ({ sector := name
         signal := if secondAvg - firstAvg > 0 then "bullish" else "bearish"
         sentiment_change := secondAvg - firstAvg
         previous_sentiment := firstAvg
         current_sentiment := secondAvg } : RotationSignal) ∈
        get_sector_rotation_signals halves) ∧
    (get_sector_rotation_signals halves).Pairwise
      (fun a b => |b.sentiment_change| ≤ |a.sentiment_change|) := by
  have hmemFor : ∀ name ∈ sectorNames, ∀ firstAvg secondAvg : ℚ,
      halves name = (some firstAvg, some secondAvg) →
      |secondAvg - firstAvg| > 2/10 →
      ({ sector := name
         signal := if secondAvg - firstAvg > 0 then "bullish" else "bearish"
         sentiment_change := secondAvg - firstAvg
         previous_sentiment := firstAvg
         current_sentiment := secondAvg } : RotationSignal) ∈
        get_sector_rotation_signals halves := by
    intro name hname firstAvg secondAvg hhalves hgt
    unfold get_sector_rotation_signals
    rw [List.mem_mergeSort, List.mem_filterMap]
    exact ⟨name, hname, by simp [signalFor, hhalves, hgt]⟩
  refine ⟨?_, hmemFor, ?_⟩
  · intro name hname firstAvg secondAvg hhalves
    constructor
    · rintro ⟨sig, hmem, hsec⟩
      unfold get_sector_rotation_signals at hmem
      rw [List.mem_mergeSort, List.mem_filterMap] at hmem
      obtain ⟨n, _, hsome⟩ := hmem
      obtain ⟨hsecn, fa, sa, hh, _, habs, _, _, _⟩ := signalFor_eq_some halves n sig hsome
      have hn : n = name := by rw [← hsecn, hsec]
      rw [hn, hhalves] at hh
      simp only [Prod.mk.injEq, Option.some_inj] at hh
      obtain ⟨h1, h2⟩ := hh
      subst h1
      subst h2
      exact habs
    · intro hgt
      exact ⟨_, hmemFor name hname firstAvg secondAvg hhalves hgt, rfl⟩
  · have hs := @List.sorted_mergeSort RotationSignal
      (fun a b => decide (|b.sentiment_change| ≤ |a.sentiment_change|))
      (fun a b c h₁ h₂ => by
        simp only [decide_eq_true_eq] at h₁ h₂ ⊢
        exact le_trans h₂ h₁)
      (fun a b => by
        simp only [Bool.or_eq_true, decide_eq_true_eq]
        exact le_total _ _)
      (sectorNames.filterMap (signalFor halves))
    unfold get_sector_rotation_signals
    exact hs.imp (fun h => by simpa using h)

/-- C4 witness: the membership clause of the theorem applied to the spec's
example window — sector "it" moving from average 0.1 to 0.4. -/
theorem rotation_signals_threshold_and_order_witness :
    ({ sector := "it"
       signal := if (4/10 : ℚ) - 1/10 > 0 then "bullish" else "bearish"
       sentiment_change := (4/10 : ℚ) - 1/10
       previous_sentiment := 1/10
       current_sentiment := 4/10 } : RotationSignal) ∈
      get_sector_rotation_signals
        (fun n => if n = "it" then (some (1/10), some (4/10))
          else if n = "banking" then (some (5/10), some (45/100))
          else (none, none)) :=
  (rotation_signals_threshold_and_order
      (fun n => if n = "it" then (some (1/10), some (4/10))
        else if n = "banking" then (some (5/10), some (45/100))
        else (none, none))).2.1
    "it" (by simp [sectorNames]) (1/10) (4/10) (by simp)
    (by rw [show ((4:ℚ)/10 - 1/10) = 3/10 by norm_num,
          abs_of_pos (by norm_num : (0:ℚ) < 3/10)]
        norm_num)

/-- The decay weight `2 ** (-age_hours / (hours / 2))` is positive and
strictly decreasing in the record's age. -/
theorem decayWeight_pos_strictAnti (hours a₁ a₂ : ℝ) (hh : 0 < hours)
    (hlt : a₁ < a₂) :
    0 < decayWeight hours a₁ ∧ 0 < decayWeight hours a₂ ∧
      decayWeight hours a₂ < decayWeight hours a₁ := by
  have hhalf : 0 < hours / 2 := by linarith
  refine ⟨Real.rpow_pos_of_pos (by norm_num) _, Real.rpow_pos_of_pos (by norm_num) _, ?_⟩
  unfold decayWeight
  rw [Real.rpow_lt_rpow_left_iff (by norm_num : (1:ℝ) < 2)]
  rw [div_lt_div_iff_of_pos_right hhalf]
  linarith

/-- C6: for two records in the window carrying equal-magnitude but opposite
scores at strictly different ages, the plain average is 0 while the
time-decay-weighted average is strictly on the side of the more recent
record's sign — strictly closer to that sign than the plain average. -/
theorem weighted_sentiment_favors_recent (hours s a₁ a₂ : ℝ)
    (hh : 0 < hours) (ha₁ : 0 ≤ a₁) (hlt : a₁ < a₂) (ha₂ : a₂ ≤ hours) :
    plainAverageSentiment [(s, a₁), (-s, a₂)] = 0 ∧
    (0 < s → 0 < weightedSentiment hours [(s, a₁), (-s, a₂)]) ∧
    (s < 0 → weightedSentiment hours [(s, a₁), (-s, a₂)] < 0) := by
  obtain ⟨hw1, hw2, hw21⟩ := decayWeight_pos_strictAnti hours a₁ a₂ hh hlt
  refine ⟨?_, ?_, ?_⟩
  · simp [plainAverageSentiment]
  · intro hspos
    simp only [weightedSentiment, List.map_cons, List.map_nil, List.sum_cons,
      List.sum_nil, add_zero]
    rw [if_pos (by linarith)]
    apply div_pos _ (by linarith)
    rw [show s * decayWeight hours a₁ + -s * decayWeight hours a₂ =
      s * (decayWeight hours a₁ - decayWeight hours a₂) by ring]
    exact mul_pos hspos (by linarith)
  · intro hsneg
    simp only [weightedSentiment, List.map_cons, List.map_nil, List.sum_cons,
      List.sum_nil, add_zero]
    rw [if_pos (by linarith)]
    apply div_neg_of_neg_of_pos _ (by linarith)
    rw [show s * decayWeight hours a₁ + -s * decayWeight hours a₂ =
      s * (decayWeight hours a₁ - decayWeight hours a₂) by ring]
    exact mul_neg_of_neg_of_pos hsneg (by linarith)

/-- C6 witness: the theorem applied in a 24-hour window to a score +1 aged
one hour against a score -1 aged two hours; the weighted average is strictly
positive while the plain average is zero. -/
theorem weighted_sentiment_favors_recent_witness :
    plainAverageSentiment [((1 : ℝ), (1 : ℝ)), (-1, 2)] = 0 ∧
      0 < weightedSentiment 24 [((1 : ℝ), (1 : ℝ)), (-1, 2)] :=
  ⟨(weighted_sentiment_favors_recent 24 1 1 2 (by norm_num) (by norm_num)
      (by norm_num) (by norm_num)).1,
   (weighted_sentiment_favors_recent 24 1 1 2 (by norm_num) (by norm_num)
      (by norm_num) (by norm_num)).2.1 (by norm_num)⟩

/-- A fold whose every step either keeps the accumulator or appends a single
element only extends the accumulator. -/
theorem foldl_step_extends {β : Type} (step : List TickerMatch → β → List TickerMatch)
    (hstep : ∀ found x, ∃ t, step found x = found ++ t) :
    ∀ (l : List β) (found0 : List TickerMatch),
      ∃ t, l.foldl step found0 = found0 ++ t := by
  intro l
  induction l with
  | nil => intro found0; exact ⟨[], by simp⟩
  | cons x xs ih =>
    intro found0
    rw [List.foldl_cons]
    obtain ⟨t1, ht1⟩ := hstep found0 x
    obtain ⟨t2, ht2⟩ := ih (step found0 x)
    exact ⟨t1 ++ t2, by rw [ht2, ht1, List.append_assoc]⟩

/-- A fold whose every step either keeps the accumulator or appends a single
element with a key not yet present preserves distinctness of the keys. -/
theorem foldl_guarded_append_nodup {β : Type}
    (step : List TickerMatch → β → List TickerMatch)
    (hstep : ∀ found x, step found x = found ∨
      ∃ m, m.symbol ∉ found.map (fun t => t.symbol) ∧ step found x = found ++ [m]) :
    ∀ (l : List β) (found0 : List TickerMatch),
      (found0.map (fun t => t.symbol)).Nodup →
      ((l.foldl step found0).map (fun t => t.symbol)).Nodup := by
  intro l
  induction l with
  | nil => intro found0 h; exact h
  | cons x xs ih =>
    intro found0 h
    rw [List.foldl_cons]
    apply ih
    rcases hstep found0 x with heq | ⟨m, hnotin, heq⟩
    · rw [heq]; exact h
    · rw [heq, List.map_append]
      refine List.Nodup.append h (List.nodup_singleton _) ?_
      intro a ha hb
      simp only [List.map_cons, List.map_nil, List.mem_singleton] at hb
      exact hnotin (hb ▸ ha)

/-- Every company-name-tier step either keeps the match list or freshly
extends it by one entry whose symbol was not yet present. -/
theorem companyStep_keep_or_append (data : List TickerInfo) (textLower : String)
    (found : List TickerMatch) (v : String × String) :
    companyStep data textLower found v = found ∨
    ∃ m : TickerMatch, m.symbol ∉ found.map (fun t => t.symbol) ∧
      companyStep data textLower found v = found ++ [m] := by
  unfold companyStep
  by_cases hc : (strContains textLower v.1 &&
      !(found.map (fun t => t.symbol)).contains v.2) = true
  · rcases hl : tickerLookup data v.2 with _ | info
    · left
      rw [if_pos hc]
    · right
      refine ⟨{ symbol := v.2, name := info.name, industry := info.industry,
                match_type := "company_name", similarity := none }, ?_, ?_⟩
      · have hnc := (Bool.and_eq_true .. ▸ hc).2
        simpa using hnc
      · rw [if_pos hc]
  · left
    rw [if_neg hc]

/-- Every fuzzy-tier inner step either keeps the match list or freshly
extends it by one entry whose symbol was not yet present. -/
theorem fuzzyStep_keep_or_append (ratioFn : String → String → ℚ)
    (threshold : ℚ) (data : List TickerInfo) (phrase : String)
    (found : List TickerMatch) (v : String × String) :
    fuzzyStep ratioFn threshold data phrase found v = found ∨
    ∃ m : TickerMatch, m.symbol ∉ found.map (fun t => t.symbol) ∧
      fuzzyStep ratioFn threshold data phrase found v = found ++ [m] := by
  unfold fuzzyStep
  by_cases hlen : v.1.length < 4
  · left
    rw [if_pos hlen]
  · rw [if_neg hlen]
    by_cases hc : (decide (ratioFn phrase v.1 ≥ threshold) &&
        !(found.map (fun t => t.symbol)).contains v.2) = true
    · rcases hl : tickerLookup data v.2 with _ | info
      · left
        rw [if_pos hc]
      · right
        refine ⟨{ symbol := v.2, name := info.name, industry := info.industry,
                  match_type := "fuzzy_match",
                  similarity := some (ratioFn phrase v.1) }, ?_, ?_⟩
        · have hnc := (Bool.and_eq_true .. ▸ hc).2
          simpa using hnc
        · rw [if_pos hc]
    · left
      rw [if_neg hc]

/-- C7 counterexample: a text mentioning the known symbol TCS twice yields two
exact-symbol matches for the same ticker, so the recognizer does not return at
most one match per symbol. -/
theorem find_tickers_duplicate_counterexample :
    ((find_tickers_in_text (fun _ _ => 0) 1
        [⟨"TCS", "Tata Consultancy Services Ltd", "IT"⟩]
        [("tata consultancy services ltd", "TCS"),
         ("tata consultancy services", "TCS"), ("tcs", "TCS")]
        "TCS and TCS").map (fun t => t.symbol)) = ["TCS", "TCS"] := by decide

/-- C7 amended: the exact-symbol tier may report the same symbol once per
occurrence in the text; the company-name and fuzzy tiers only ever append
symbols not already found, so the result extends the exact-symbol tier's list
and, whenever the exact-symbol tier's symbols are pairwise distinct, the whole
result has pairwise-distinct symbols. -/
theorem find_tickers_later_tiers_dedup (ratioFn : String → String → ℚ)
    (threshold : ℚ) (data : List TickerInfo)
    (variations : List (String × String)) (text : String) :
    (∃ tail, find_tickers_in_text ratioFn threshold data variations text =
      exactSymbolTier data text ++ tail) ∧
    (((exactSymbolTier data text).map (fun t => t.symbol)).Nodup →
      ((find_tickers_in_text ratioFn threshold data variations text).map
        (fun t => t.symbol)).Nodup) := by
  have hinner : ∀ (textLower : String) (found0 : List TickerMatch),
      (∃ t, companyNameTier data variations textLower found0 = found0 ++ t) ∧
      ((found0.map (fun t => t.symbol)).Nodup →
        ((companyNameTier data variations textLower found0).map
          (fun t => t.symbol)).Nodup) := by
    intro textLower found0
    constructor
    · exact foldl_step_extends (companyStep data textLower)
        (fun found v => by
          rcases companyStep_keep_or_append data textLower found v with h | ⟨m, _, h⟩
          · exact ⟨[], by rw [h]; simp⟩
          · exact ⟨[m], h⟩)
        variations found0
    · exact foldl_guarded_append_nodup (companyStep data textLower)
        (fun found v => companyStep_keep_or_append data textLower found v)
        variations found0
  have hfuzzyInner : ∀ (phrase : String) (found0 : List TickerMatch),
      (∃ t, variations.foldl (fuzzyStep ratioFn threshold data phrase) found0 =
        found0 ++ t) ∧
      ((found0.map (fun t => t.symbol)).Nodup →
        ((variations.foldl (fuzzyStep ratioFn threshold data phrase) found0).map
          (fun t => t.symbol)).Nodup) := by
    intro phrase found0
    constructor
    · exact foldl_step_extends (fuzzyStep ratioFn threshold data phrase)
        (fun found v => by
          rcases fuzzyStep_keep_or_append ratioFn threshold data phrase found v
            with h | ⟨m, _, h⟩
          · exact ⟨[], by rw [h]; simp⟩
          · exact ⟨[m], h⟩)
        variations found0
    · exact foldl_guarded_append_nodup (fuzzyStep ratioFn threshold data phrase)
        (fun found v => fuzzyStep_keep_or_append ratioFn threshold data phrase found v)
        variations found0
  have houter : ∀ (textLower : String) (found0 : List TickerMatch),
      (∃ t, fuzzyTier ratioFn threshold data variations textLower found0 =
        found0 ++ t) ∧
      ((found0.map (fun t => t.symbol)).Nodup →
        ((fuzzyTier ratioFn threshold data variations textLower found0).map
          (fun t => t.symbol)).Nodup) := by
    intro textLower found0
    unfold fuzzyTier
    constructor
    · exact foldl_step_extends _
        (fun foundPhrase phrase => by
          by_cases hp : phrase.length < 4
          · exact ⟨[], by rw [if_pos hp]; simp⟩
          · obtain ⟨t, ht⟩ := (hfuzzyInner phrase foundPhrase).1
            exact ⟨t, by rw [if_neg hp]; exact ht⟩)
        (windowPhrases (pySplit textLower)) found0
    · intro h
      induction windowPhrases (pySplit textLower) generalizing found0 with
      | nil => exact h
      | cons p ps ih =>
        rw [List.foldl_cons]
        by_cases hp : p.length < 4
        · rw [if_pos hp]
          exact ih _ h
        · rw [if_neg hp]
          exact ih _ ((hfuzzyInner p found0).2 h)
  unfold find_tickers_in_text
  constructor
  · obtain ⟨t1, ht1⟩ := (hinner (pyLower text) (exactSymbolTier data text)).1
    obtain ⟨t2, ht2⟩ := (houter (pyLower text)
      (companyNameTier data variations (pyLower text)
        (exactSymbolTier data text))).1
    exact ⟨t1 ++ t2, by rw [ht2, ht1, List.append_assoc]⟩
  · intro h
    exact (houter (pyLower text) _).2 ((hinner (pyLower text) _).2 h)

/-- C7 amended witness: the theorem applied to the duplicate-mention input;
since the exact tier's symbol list TCS, TCS is not duplicate-free there, the
nodup clause applies vacuously, and the extension clause is instantiated. -/
theorem find_tickers_later_tiers_dedup_witness :
    ∃ tail, find_tickers_in_text (fun _ _ => 0) (85/100)
        [⟨"TCS", "Tata Consultancy Services Ltd", "IT"⟩]
        [("tata consultancy services ltd", "TCS"),
         ("tata consultancy services", "TCS"), ("tcs", "TCS")]
        "RELIANCE results" =
      exactSymbolTier [⟨"TCS", "Tata Consultancy Services Ltd", "IT"⟩]
        "RELIANCE results" ++ tail :=
  (find_tickers_later_tiers_dedup (fun _ _ => 0) (85/100)
    [⟨"TCS", "Tata Consultancy Services Ltd", "IT"⟩]
    [("tata consultancy services ltd", "TCS"),
     ("tata consultancy services", "TCS"), ("tcs", "TCS")]
    "RELIANCE results").1

/-- C8 counterexample: a validated entry with no summary/description is
normalized by `BaseScraper.normalize_article` with an empty summary, not the
title. -/
theorem normalize_article_summary_counterexample :
    validate_article ⟨some "T", none, none, none, some "http://x", none, none,
      none, none⟩ = true ∧
    (normalize_article id (fun _ => none) "src"
      ⟨some "T", none, none, none, some "http://x", none, none,
       none, none⟩).content_summary = "" ∧
    (normalize_article id (fun _ => none) "src"
      ⟨some "T", none, none, none, some "http://x", none, none,
       none, none⟩).content_summary ≠
      (normalize_article id (fun _ => none) "src"
        ⟨some "T", none, none, none, some "http://x", none, none,
         none, none⟩).title := by
  refine ⟨by decide, by decide, by decide⟩

/-- C8 amended: for a validated raw entry without summary/description,
`BaseScraper.normalize_article` sets the normalized summary to the empty
string; the summary-defaults-to-title rule holds only in the refactored
scraper's `_extract_article`. -/
theorem normalize_article_summary_default (hashFn : String → String)
    (parseDate : String → Option ℤ) (sourceName : String) (e : RawEntry)
    (hs : e.summary = none) (hd : e.description = none) :
    (normalize_article hashFn parseDate sourceName e).content_summary = "" ∧
    (∀ (feedName : String) (art : NormalizedArticle),
      extract_article hashFn feedName e = some art →
      art.content_summary = art.title) := by
  constructor
  · simp [normalize_article, hs, hd, pyStrip]
  · intro feedName art hart
    unfold extract_article at hart
    rw [hs, hd] at hart
    simp only [Option.getD_none] at hart
    split at hart
    · exact absurd hart (by simp)
    · obtain rfl := Option.some_inj.mp hart
      simp [show pyStrip "" = "" from by decide]

/-- C8 amended witness: the theorem applied to the entry with title "T", a
valid link, and no summary/description. -/
theorem normalize_article_summary_default_witness :
    (normalize_article id (fun _ => none) "src"
      ⟨some "T", none, none, none, some "http://x", none, none,
       none, none⟩).content_summary = "" :=
  (normalize_article_summary_default id (fun _ => none) "src"
    ⟨some "T", none, none, none, some "http://x", none, none, none, none⟩
    rfl rfl).1

/-- With an always-failing scrape, the retry wrapper performs exactly
`maxRetries` attempts and sleeps the exponentially escalating delays
`2^attempt` between consecutive attempts. -/
theorem scrapeWithRetryAux_all_fail (scrape : ℕ → Option (List NormalizedArticle))
    (hf : ∀ k, scrape k = none) (m : ℕ) :
    ∀ d attempt, m - attempt = d → attempt < m →
      scrapeWithRetryAux scrape m attempt =
        ([], m, (List.range' attempt (m - 1 - attempt)).map (fun k => 2 ^ k)) := by
  intro d
  induction d with
  | zero => intro attempt hd hlt; omega
  | succ n ih =>
    intro attempt hd hlt
    rw [scrapeWithRetryAux]
    rw [if_pos hlt, hf attempt]
    by_cases hlast : attempt < m - 1
    · rw [if_pos hlast]
      rw [ih (attempt + 1) (by omega) (by omega)]
      have hrange : m - 1 - attempt = (m - 1 - (attempt + 1)) + 1 := by omega
      rw [hrange, List.range'_succ, List.map_cons]
    · rw [if_neg hlast]
      have h1 : attempt + 1 = m := by omega
      have h2 : m - 1 - attempt = 0 := by omega
      rw [h1, h2]
      simp

/-- C9 counterexample: a feed failing with HTTP 500 is fetched exactly once by
the async RSS path — the 5xx failure is converted to an empty result and never
retried, contrary to the claimed retry-on-5xx policy. -/
theorem fetch_retry_5xx_counterexample :
    (scrape_feed (fun _ => FetchOutcome.httpStatus 500)).2 = 1 ∧
    (scrape_feed (fun _ => FetchOutcome.httpStatus 500)).1 = [] :=
  ⟨rfl, rfl⟩

/-- C9 amended: the async RSS fetch performs exactly one HTTP request per feed
whatever the outcome; `BaseScraper.scrape_with_retry` retries any failing
scrape up to `max_retries` attempts with exponentially escalating delays
`2^attempt`, and stops after the first success; and only the refactored
synchronous scraper's session retries by HTTP status, namely exactly on
{429, 500, 502, 503, 504} — so there a 4xx status other than 429 is never
retried. -/
theorem fetch_retry_policy (m : ℕ) (hm : 1 ≤ m) :
    (∀ responses : ℕ → FetchOutcome, (scrape_feed responses).2 = 1) ∧
    (∀ scrape : ℕ → Option (List NormalizedArticle), (∀ k, scrape k = none) →
      scrape_with_retry scrape m =
        ([], m, (List.range (m - 1)).map (fun k => 2 ^ k))) ∧
    (∀ (scrape : ℕ → Option (List NormalizedArticle))
      (articles : List NormalizedArticle), scrape 0 = some articles →
      scrape_with_retry scrape m = (articles, 1, [])) ∧
    (∀ s : ℕ, 400 ≤ s → s ≤ 499 → s ≠ 429 → s ∉ retryStatusForcelist) ∧
    429 ∈ retryStatusForcelist ∧ 500 ∈ retryStatusForcelist := by
  refine ⟨?_, ?_, ?_, ?_, by decide, by decide⟩
  · intro responses
    unfold scrape_feed
    rcases responses 0 with _ | _ | _ | _ <;> rfl
  · intro scrape hf
    unfold scrape_with_retry
    rw [scrapeWithRetryAux_all_fail scrape hf m m 0 (by omega) (by omega)]
    rw [List.range_eq_range']
    simp
  · intro scrape articles h0
    unfold scrape_with_retry
    rw [scrapeWithRetryAux]
    rw [if_pos (by omega : 0 < m), h0]
  · intro s h4 h9 hne
    simp only [retryStatusForcelist, List.mem_cons, List.not_mem_nil, or_false]
    omega

/-- C9 amended witness: the theorem applied with three attempts to an
always-failing scrape — three attempts are made with backoff delays 1 and 2
seconds. -/
theorem fetch_retry_policy_witness :
    scrape_with_retry (fun _ => none) 3 =
      ([], 3, (List.range (3 - 1)).map (fun k => 2 ^ k)) :=
  (fetch_retry_policy 3 (by norm_num)).2.1 (fun _ => none) (fun _ => rfl)

end NewsAnalyser
